import Mathlib

/-!
Verification of `streaming_setup.py` (pi_streaming_setup).

Strings are modelled as `List Char` (Python `str`).  Each Python helper used
by the claims is embedded as an executable Lean function; fallible Python code
(uncaught exceptions) is modelled with `Option`/`Except`.
-/

set_option maxRecDepth 10000

namespace StreamingSetup

/-- Model of Python `str.split(sep)` for a one-character separator.
`"".split(sep) = [""]`, `"axb".split("x") = ["a","b"]`. Accumulator holds the
current segment reversed. -/
def splitOnCharAux (sep : Char) : List Char → List Char → List (List Char)
  | [], cur => [cur.reverse]
  | c :: rest, cur =>
    if c = sep then cur.reverse :: splitOnCharAux sep rest []
    else splitOnCharAux sep rest (c :: cur)

def splitOnChar (sep : Char) (l : List Char) : List (List Char) :=
  splitOnCharAux sep l []

/-- Model of Python `str.index(c)` / `list.index(x)`: index of the first
occurrence, `none` when absent (Python raises `ValueError`). -/
def idxOf? {α : Type} [DecidableEq α] (a : α) : List α → Option Nat
  | [] => none
  | x :: rest => if x = a then some 0 else (idxOf? a rest).map (· + 1)

/-- Numeric value of a decimal digit string (digits assumed). -/
def digitsVal (l : List Char) : Nat :=
  l.foldl (fun acc c => acc * 10 + (c.toNat - 48)) 0

/-- Model of Python `int(s)` on the strings this program feeds it: a non-empty
run of ASCII digits, optionally preceded by a single minus sign.  (Python's
`int` also tolerates surrounding whitespace, a plus sign and underscores; the
repository never produces such inputs.)  `none` models the raised
`ValueError`. -/
def pyInt? : List Char → Option Int
  | [] => none
  | c :: rest =>
    if c = '-' then
      if rest ≠ [] ∧ rest.all Char.isDigit then some (-(digitsVal rest : Int)) else none
    else
      if (c :: rest).all Char.isDigit then some ((digitsVal (c :: rest) : Int)) else none

/-- Decimal rendering of a natural number (Python `f"{n}"`), fuel-structured
so that it reduces in the kernel.  The fuel `n+1` always suffices since the
argument shrinks by a factor of ten each step. -/
def natToDigitsAux : Nat → Nat → List Char → List Char
  | 0, _, acc => acc
  | fuel + 1, n, acc =>
    let d := Char.ofNat (48 + n % 10)
    if n < 10 then d :: acc else natToDigitsAux fuel (n / 10) (d :: acc)

def natToDigits (n : Nat) : List Char :=
  natToDigitsAux (n + 1) n []

/-- Decimal rendering of an integer (Python `f"{i}"`). -/
def intToStr (i : Int) : List Char :=
  if i < 0 then '-' :: natToDigits i.natAbs else natToDigits i.toNat

/-- Model of Python `str.split()` (no argument): split on whitespace runs,
discarding empty segments. -/
def pySplitWsAux : List Char → List Char → List (List Char)
  | [], cur => if cur = [] then [] else [cur.reverse]
  | c :: rest, cur =>
    if c.isWhitespace then
      (if cur = [] then pySplitWsAux rest [] else cur.reverse :: pySplitWsAux rest [])
    else pySplitWsAux rest (c :: cur)

def pySplitWs (l : List Char) : List (List Char) :=
  pySplitWsAux l []

/-- Model of Python `str.splitlines()` for `\n`-separated text (the only line
terminator appearing in the files this program reads and writes). -/
def splitlinesAux : List Char → List Char → List (List Char)
  | [], cur => if cur = [] then [] else [cur.reverse]
  | c :: rest, cur =>
    if c = '\n' then cur.reverse :: splitlinesAux rest []
    else splitlinesAux rest (c :: cur)

def splitlines (l : List Char) : List (List Char) :=
  splitlinesAux l []

/-- Model of Python `sep.join(parts)` for a one-character separator. -/
def sepJoin (sep : Char) : List (List Char) → List Char
  | [] => []
  | [t] => t
  | t :: ts => t ++ sep :: sepJoin sep ts

/-- Model of the source's `.replace("  ", " ")`: a single left-to-right pass
replacing non-overlapping double spaces by single spaces. -/
def pyReplace : List Char → List Char
  | [] => []
  | [c] => [c]
  | c1 :: c2 :: rest =>
    if c1 = ' ' ∧ c2 = ' ' then ' ' :: pyReplace rest
    else c1 :: pyReplace (c2 :: rest)

def isQuoteChar (c : Char) : Bool :=
  c = '"' ∨ c = Char.ofNat 39

/-- Model of Python `s.strip("\"'")`: remove quote characters from both
ends. -/
def stripQuotes (l : List Char) : List Char :=
  (l.dropWhile isQuoteChar).rdropWhile isQuoteChar

/-- Model of `s.lower().endswith(("m", "k", "g"))`: only the final character
matters. -/
def endsWithMKG (l : List Char) : Bool :=
  match l.getLast? with
  | some ch => ch.toLower = 'm' ∨ ch.toLower = 'k' ∨ ch.toLower = 'g'
  | none => false

/-- Model of Python's substring test `t in s`. -/
def isSubstrOf (t s : List Char) : Bool :=
  decide (t <:+: s)

/-- First-match association lookup (Python `dict[key]` / `key in dict`; the
dictionaries this models have unique keys). -/
def lookupK {α β : Type} [DecidableEq α] (a : α) : List (α × β) → Option β
  | [] => none
  | (k, v) :: rest => if k = a then some v else lookupK a rest

/-- Model of `pathlib.Path(p).stem` for ordinary file names: last path
component without its final extension. -/
def pathStem (p : List Char) : List Char :=
  let base := (splitOnChar '/' p).getLastD []
  match base with
  | [] => []
  | c :: rest =>
    if '.' ∈ rest then c :: ((rest.reverse.dropWhile (fun ch => ch ≠ '.')).drop 1).reverse
    else base

/-! ## Embedding of `get_best_resolution` (nested in `camera_info`) -/

/-- Embedding of the inner loop body of the enumerated branch: parse one
`WxH` token (`option.split("x")` into exactly two parts, `int` on each);
`none` models the caught per-token exception. -/
def tokParse (t : List Char) : Option (Int × Int) :=
  match splitOnChar 'x' t with
  | [w, h] =>
    match pyInt? w, pyInt? h with
    | some a, some b => some (a, b)
    | _, _ => none
  | _ => none

/-- Embedding of `get_best_resolution` from `camera_info`
(`streaming_setup.py` lines 289-309).  The range branch returns `none` when
the Python code would log the caught exception and fall through returning
`None`. -/
def get_best_resolution (res : List Char) : Option (List Char) :=
  if '{' ∈ res then
    match splitOnChar 'x' res with
    | [w, h] =>
      match idxOf? '-' w, idxOf? ',' w, idxOf? '-' h, idxOf? ',' h with
      | some iw, some jw, some ih, some jh =>
        let w2 := (w.drop (iw + 1)).take (jw - (iw + 1))
        let h2 := (h.drop (ih + 1)).take (jh - (ih + 1))
        match pyInt? w2 with
        | some n => some (if n < 2000 then w2 ++ 'x' :: h2 else "1920x1080".data)
        | none => none
      | _, _, _, _ => none
    | _ => none
  else
    let p := (pySplitWs res).foldl
      (fun acc t =>
        match tokParse t with
        | some wh => if wh.1 * wh.2 > acc.1 * acc.2 then wh else acc
        | none => acc)
      ((0 : Int), (0 : Int))
    some (if p.1 < 2000 ∧ p.1 ≠ 0 then intToStr p.1 ++ 'x' :: intToStr p.2
          else "1920x1080".data)

/-- The maximum-area fold of the enumerated branch, on already-parsed pairs
(first pair wins ties, seeded with `(0, 0)` as in the source). -/
def bestArea (ps : List (Int × Int)) : Int × Int :=
  ps.foldl (fun acc q => if q.1 * q.2 > acc.1 * acc.2 then q else acc) ((0 : Int), (0 : Int))

/-! ## Embedding of `find_best_device` (lines 325-341)

A candidate is a pair of the device path and its parsed format map
(`camera_info` result, a `dict` in insertion order).  A probe returning
`None` or an empty map is modelled as `[]` — both are falsy in
`if not options: continue`. -/

abbrev FormatMap : Type := List (List Char × List Char)

/-- `"h264" in options` — key membership in the format map. -/
def hasFmt (m : FormatMap) (f : List Char) : Bool :=
  (lookupK f m).isSome

/-- The fixed priority tuple `("h264", "mjpeg", "yuyv422", "yuv420p")`. -/
def priorityFormats : List (List Char) :=
  ["h264".data, "mjpeg".data, "yuyv422".data, "yuv420p".data]

/-- The format-choice loop at the end of `find_best_device`: first priority
format present in the map, else the first-inserted entry
(`list(current_best[1].items())[0]`, `none` modelling the `IndexError` on an
empty map, unreachable in context). -/
def pickFormat (m : FormatMap) : Option (List Char × List Char) :=
  match priorityFormats.find? (fun f => hasFmt m f) with
  | some f => (lookupK f m).map (fun r => (f, r))
  | none => m.head?

/-- The candidate-selection fold of `find_best_device`. -/
def selStep (cb d : List Char × FormatMap) : List Char × FormatMap :=
  if d.2 = ([] : FormatMap) then cb
  else if hasFmt d.2 "h264".data then d
  else if ¬ hasFmt cb.2 "h264".data then d
  else cb

/-- Embedding of `find_best_device`, over the enumerated candidates in
discovery order. -/
def find_best_device (devs : List (List Char × FormatMap)) :
    Option (List Char × List Char × List Char) :=
  let cb := devs.foldl selStep (([] : List Char), ([] : FormatMap))
  if cb.1 = [] then some ("/dev/video0".data, "h264".data, "1920x1080".data)
  else (pickFormat cb.2).map (fun fr => (cb.1, fr.1, fr.2))

/-- `find_best_device` together with the log lines it emits: the source
function body contains no logging, raising or advisory of any kind, so the
emitted list is always empty. -/
def find_best_device_logged (devs : List (List Char × FormatMap)) :
    Option (List Char × List Char × List Char) × List (List Char) :=
  (find_best_device devs, [])

/-! ## Embedding of `update_rc_local_file` (lines 572-598) -/

/-- The `rc_local_update` patch block. -/
def rc_local_update (on_reboot_file : List Char) : List (List Char) :=
  ["# Streaming Shared Memory Setup".data,
   "if [ -f ".data ++ on_reboot_file ++ " ]; then".data,
   "    /bin/bash ".data ++ on_reboot_file ++ " || true".data,
   "fi".data]

/-- Embedding of `update_rc_local_file`.  Input and output are the full file
content; `some` is the content after the call (unchanged when no write
happens), `none` models the uncaught `ValueError` of
`contents.index("exit 0")` when no line equals `"exit 0"`. -/
def update_rc_local_file (disable_overwrite : Bool) (on_reboot_file content : List Char) :
    Option (List Char) :=
  let contents := splitlines content
  if "# Streaming Shared Memory Setup".data ∈ contents then some content
  else
    match idxOf? "exit 0".data contents with
    | none => none
    | some i =>
      if i > 0 then
        some (sepJoin '\n' (contents.take i ++ rc_local_update on_reboot_file ++ contents.drop i))
      else if disable_overwrite then some content
      else some (sepJoin '\n' (contents ++ rc_local_update on_reboot_file))

/-! ## Embedding of the whole-file installers (lines 601-654, 700-726)

The file system is modelled per destination file as
`Option (content × permission bits)` — `none` when the file does not exist.
Installers return the state after the call plus the list of shell commands
they run; `install_index_file` additionally wraps its result in `Option`
because it parses `video_size` before anything else and an uncaught
`ValueError` aborts the call. -/

/-- `width, height = video_size.split("x"); int(width), int(height)` —
shared by `install_index_file` and the dynamic-bitrate branch of
`prepare_ffmpeg_command`. -/
def parse_video_size (vs : List Char) : Option (Int × Int) :=
  match splitOnChar 'x' vs with
  | [x, y] =>
    match pyInt? x, pyInt? y with
    | some a, some b => some (a, b)
    | _, _ => none
  | _ => none

/-- The generated `index.html` content (f-string at lines 607-628). -/
def index_contents (width : Int) : List Char :=
  "<!DOCTYPE html>\n<html lang=\"en\">\n<head>\n    <meta charset=\"UTF-8\">\n    <title>Raspberry Pi Camera</title>\n    <style>\n        html body .page \x7b height: 100%; width: 100%; \x7d\n        video \x7b width: ".data
    ++ intToStr width
    ++ "px; \x7d\n        .wrapper \x7b width: ".data
    ++ intToStr width
    ++ "px; margin: auto; \x7d\n    </style>\n</head>\n<body>\n<div class=\"page\">\n    <div class=\"wrapper\">\n        <h1>Raspberry Pi Camera</h1>\n        <video data-dashjs-player autoplay controls src=\"manifest.mpd\" type=\"application/dash+xml\"></video>\n    </div>\n</div>\n<script src=\"http://cdn.dashjs.org/latest/dash.all.debug.js\" ></script>\n</body>\n</html>\n".data

/-- Embedding of `install_index_file`.  Runs no shell commands; `0o644` is
the chmod applied after a write. -/
def install_index_file (disable_overwrite : Bool) (video_size : List Char)
    (existing : Option (List Char × Nat)) : Option (Option (List Char × Nat)) :=
  match parse_video_size video_size with
  | none => none
  | some wh =>
    let width := if wh.1 > 1200 then 1200 else wh.1
    match existing with
    | some st => if disable_overwrite then some (some st) else some (some (index_contents width, 0o644))
    | none => some (some (index_contents width, 0o644))

/-- The generated `setup_streaming.sh` content (f-string at lines 639-646). -/
def on_reboot_contents (index_file : List Char) : List Char :=
  "mkdir -p /dev/shm/streaming\nif [ ! -e /var/www/html/streaming ]; then\n    ln -s  /dev/shm/streaming /var/www/html/streaming\nfi\nif [ ! -e /var/www/html/streaming/index.html ]; then\n    ln -s ".data
    ++ index_file
    ++ " /var/www/html/streaming/index.html\nfi\n".data

/-- Embedding of `install_on_reboot_file`: skip when the file exists and
overwrite is disabled, otherwise write, chmod `0o755` and run the script. -/
def install_on_reboot_file (disable_overwrite : Bool) (on_reboot_file index_file : List Char)
    (existing : Option (List Char × Nat)) :
    Option (List Char × Nat) × List (List Char) :=
  match existing with
  | some st =>
    if disable_overwrite then (some st, [])
    else (some (on_reboot_contents index_file, 0o755), ["/bin/bash ".data ++ on_reboot_file])
  | none => (some (on_reboot_contents index_file, 0o755), ["/bin/bash ".data ++ on_reboot_file])

/-- The generated systemd unit content (f-string at lines 701-713). -/
def systemd_contents (systemd_file ffmpeg_command : List Char) : List Char :=
  "# ".data ++ systemd_file
    ++ "\n[Unit]\nDescription=Camera Streaming Service\nAfter=network.target rc-local.service\n\n[Service]\nRestart=always\nRestartSec=20s\nExecStart=".data
    ++ ffmpeg_command
    ++ "\n\n[Install]\nWantedBy=multi-user.target\n".data

/-- Embedding of `install_ffmpeg_systemd_file`: skip when the file exists and
overwrite is disabled, otherwise write, chmod `0o755`, reload and enable the
service. -/
def install_ffmpeg_systemd_file (disable_overwrite : Bool) (systemd_file ffmpeg_command : List Char)
    (existing : Option (List Char × Nat)) :
    Option (List Char × Nat) × List (List Char) :=
  match existing with
  | some st =>
    if disable_overwrite then (some st, [])
    else
      (some (systemd_contents systemd_file ffmpeg_command, 0o755),
       ["systemctl daemon-reload".data,
        "systemctl start ".data ++ pathStem systemd_file,
        "systemctl enable ".data ++ pathStem systemd_file])
  | none =>
    (some (systemd_contents systemd_file ffmpeg_command, 0o755),
     ["systemctl daemon-reload".data,
      "systemctl start ".data ++ pathStem systemd_file,
      "systemctl enable ".data ++ pathStem systemd_file])

/-! ## Embedding of `prepare_ffmpeg_command` (lines 657-696) -/

/-- The `default_paths` dictionary; `none` models the `KeyError` raised on
any other output format tag. -/
def default_paths (fmt : List Char) : Option (List Char) :=
  if fmt = "dash".data then some "/dev/shm/streaming/manifest.mpd".data
  else if fmt = "rtsp".data then some "rtsp://localhost:8554/streaming".data
  else none

/-- The protocol output clause (`if fmt == "dash" ... elif "rtsp" ... else
raise`); `none` models the raised `Exception`. -/
def out_clause (fmt : List Char) (disable_hls : Bool) (path : List Char) : Option (List Char) :=
  if fmt = "dash".data then
    some ("-f dash -remove_at_exit 1 -window_size 5 -use_timeline 1 -use_template 1 ".data
      ++ (if disable_hls then [] else "-hls_playlist 1 ".data) ++ path)
  else if fmt = "rtsp".data then some ("-f rtsp ".data ++ path)
  else none

/-- The final f-string of `prepare_ffmpeg_command` followed by
`.replace("  ", " ")`.  (`{ffmpeg_params if ffmpeg_params else ''}`
interpolates `params` itself in both cases, since an empty list prints as the
empty string.) -/
def assemble_command (input_format video_size video_device codec params out : List Char) :
    List Char :=
  pyReplace ("ffmpeg -nostdin -hide_banner -loglevel error -f v4l2 -input_format ".data
    ++ input_format ++ " -s ".data ++ video_size ++ " -i ".data ++ video_device
    ++ " -c:v ".data ++ codec ++ [' '] ++ params ++ [' '] ++ out)

/-- Embedding of `prepare_ffmpeg_command`.  `path = []` models the falsy
default `None` (and the empty string); `none` results model the uncaught
exceptions (`KeyError` on an unknown format with no path, `ValueError` from
`video_size` parsing in the dynamic-bitrate branch, and the explicit `raise`
for an unsupported output format). -/
def prepare_ffmpeg_command (input_format video_size video_device codec ffmpeg_params fmt : List Char)
    (disable_hls : Bool) (path : List Char) (bitrate : List Char) : Option (List Char) :=
  match (if path = [] then default_paths fmt else some path) with
  | none => none
  | some p =>
    let params0 := if ffmpeg_params = [] then ffmpeg_params else stripQuotes ffmpeg_params
    let paramsR :=
      if codec ≠ "copy".data then
        if isSubstrOf "-b".data params0 = false ∧ bitrate = "dynamic".data then
          match parse_video_size video_size with
          | some xy =>
            some (params0 ++ " -b:v ".data ++ intToStr (Int.fdiv (xy.1 * xy.2 * 2) 1024) ++ ['k'])
          | none => none
        else
          some (params0 ++ " -b:v ".data ++ (if endsWithMKG bitrate then bitrate else bitrate ++ ['k']))
      else some params0
    match paramsR with
    | none => none
    | some ps =>
      match out_clause fmt disable_hls p with
      | none => none
      | some out => some (assemble_command input_format video_size video_device codec ps out)

/-! ## Embedding of the `install_rtsp` asset selection (lines 757-792) -/

/-- The primary architecture mapping table. -/
def primary_mappings : List (List Char × List Char) :=
  [("armv7l".data, "armv7".data), ("armv6l".data, "armv6".data), ("aarch64".data, "armv64".data)]

/-- The legacy ("old mapping style for safety") table, consulted only when
the architecture key is absent from the primary table. -/
def legacy_mappings : List (List Char × List Char) :=
  [("armv7l".data, "arm7".data), ("armv6l".data, "arm6".data), ("aarch64".data, "arm64".data)]

/-- Embedding of the architecture-to-asset selection of `install_rtsp`: map
the `lscpu` architecture token through the tables, then take the first
release asset whose name contains the mapped token
(`for asset in rtsp_assets: if arch in asset["name"]: ... break / else:
raise`).  Errors carry the raised exception messages. -/
def install_rtsp_select (architecture : List Char) (assets : List (List Char)) :
    Except (List Char) (List Char) :=
  match (match lookupK architecture primary_mappings with
         | some a => some a
         | none => lookupK architecture legacy_mappings) with
  | none => Except.error ("Don't know the arch ".data ++ architecture)
  | some arch =>
    match assets.find? (fun n => isSubstrOf arch n) with
    | some n => Except.ok n
    | none => Except.error "Could not find download for rtsp server".data

/-! ## Basic lemmas about the string model -/

theorem splitOnCharAux_not_mem (sep : Char) (l cur : List Char) (h : sep ∉ l) :
    splitOnCharAux sep l cur = [cur.reverse ++ l] := by
  induction l generalizing cur with
  | nil => simp [splitOnCharAux]
  | cons c rest ih =>
    have hc : c ≠ sep := fun hc => h (hc ▸ List.mem_cons_self c rest)
    have hr : sep ∉ rest := fun hr => h (List.mem_cons_of_mem c hr)
    simp [splitOnCharAux, hc, ih _ hr]

theorem splitOnCharAux_app (sep : Char) (l cur r : List Char) (h : sep ∉ l) :
    splitOnCharAux sep (l ++ sep :: r) cur = (cur.reverse ++ l) :: splitOnCharAux sep r [] := by
  induction l generalizing cur with
  | nil => simp [splitOnCharAux]
  | cons c rest ih =>
    have hc : c ≠ sep := fun hc => h (hc ▸ List.mem_cons_self c rest)
    have hr : sep ∉ rest := fun hr => h (List.mem_cons_of_mem c hr)
    simp [splitOnCharAux, hc, ih _ hr]

theorem splitOnChar_not_mem (sep : Char) (l : List Char) (h : sep ∉ l) :
    splitOnChar sep l = [l] := by
  simp [splitOnChar, splitOnCharAux_not_mem sep l [] h]

theorem splitOnChar_app (sep : Char) (l r : List Char) (h : sep ∉ l) :
    splitOnChar sep (l ++ sep :: r) = l :: splitOnChar sep r := by
  simp [splitOnChar, splitOnCharAux_app sep l [] r h]

theorem idxOf?_app {α : Type} [DecidableEq α] (a : α) (l r : List α) (h : a ∉ l) :
    idxOf? a (l ++ a :: r) = some l.length := by
  induction l with
  | nil => simp [idxOf?]
  | cons x rest ih =>
    have hx : x ≠ a := fun hx => h (hx ▸ List.mem_cons_self x rest)
    have hr : a ∉ rest := fun hr => h (List.mem_cons_of_mem x hr)
    simp [idxOf?, hx, ih hr]

theorem digit_ne_x {c : Char} (h : c.isDigit = true) : c ≠ 'x' := by
  rintro rfl; exact absurd h (by decide)

theorem digit_ne_dash {c : Char} (h : c.isDigit = true) : c ≠ '-' := by
  rintro rfl; exact absurd h (by decide)

theorem digit_ne_comma {c : Char} (h : c.isDigit = true) : c ≠ ',' := by
  rintro rfl; exact absurd h (by decide)

theorem pyInt?_digits (l : List Char) (h1 : l ≠ []) (h2 : ∀ c ∈ l, c.isDigit = true) :
    pyInt? l = some ((digitsVal l : Nat) : Int) := by
  match l with
  | [] => exact absurd rfl h1
  | c :: rest =>
    have hc : c ≠ '-' := digit_ne_dash (h2 c (List.mem_cons_self c rest))
    have hall : (c :: rest).all Char.isDigit = true := List.all_eq_true.mpr h2
    simp [pyInt?, hc, hall]

/-! ## Claim C2: range-form resolution strings -/

/-- **C2** (confirmed).  For every well-formed range-form resolution string
`{a-b,s}x{c-d,e}` — digit strings `a, b, c, d` with `b, d` non-empty, and
`s, e` free of `x` — the parser returns `"{b}x{d}"` built from the two upper
bounds when the numeric width `b` is below 2000, and returns `"1920x1080"`
when `b ≥ 2000`. -/
theorem C2_range_resolution (a b c d s e : List Char)
    (ha : ∀ ch ∈ a, ch.isDigit = true) (hb : ∀ ch ∈ b, ch.isDigit = true) (hb0 : b ≠ [])
    (hc : ∀ ch ∈ c, ch.isDigit = true) (hd : ∀ ch ∈ d, ch.isDigit = true) (_hd0 : d ≠ [])
    (hs : 'x' ∉ s) (he : 'x' ∉ e) :
    get_best_resolution
        (('{' :: (a ++ '-' :: (b ++ ',' :: (s ++ ['}']))))
          ++ 'x' :: ('{' :: (c ++ '-' :: (d ++ ',' :: (e ++ ['}']))))) =
      some (if digitsVal b < 2000 then b ++ 'x' :: d else "1920x1080".data) := by
  set w : List Char := '{' :: (a ++ '-' :: (b ++ ',' :: (s ++ ['}']))) with hw
  set h : List Char := '{' :: (c ++ '-' :: (d ++ ',' :: (e ++ ['}']))) with hh
  have hbrace : '{' ∈ w ++ 'x' :: h := by
    rw [hw]; exact List.mem_append_left _ (List.mem_cons_self _ _)
  have hxw : 'x' ∉ w := by
    rw [hw]
    intro hx
    rcases List.mem_cons.mp hx with h1 | h1
    · exact absurd h1.symm (by decide)
    rcases List.mem_append.mp h1 with h2 | h2
    · exact digit_ne_x (ha _ h2) rfl
    rcases List.mem_cons.mp h2 with h3 | h3
    · exact absurd h3.symm (by decide)
    rcases List.mem_append.mp h3 with h4 | h4
    · exact digit_ne_x (hb _ h4) rfl
    rcases List.mem_cons.mp h4 with h5 | h5
    · exact absurd h5.symm (by decide)
    rcases List.mem_append.mp h5 with h6 | h6
    · exact hs h6
    · simp at h6
  have hxh : 'x' ∉ h := by
    rw [hh]
    intro hx
    rcases List.mem_cons.mp hx with h1 | h1
    · exact absurd h1.symm (by decide)
    rcases List.mem_append.mp h1 with h2 | h2
    · exact digit_ne_x (hc _ h2) rfl
    rcases List.mem_cons.mp h2 with h3 | h3
    · exact absurd h3.symm (by decide)
    rcases List.mem_append.mp h3 with h4 | h4
    · exact digit_ne_x (hd _ h4) rfl
    rcases List.mem_cons.mp h4 with h5 | h5
    · exact absurd h5.symm (by decide)
    rcases List.mem_append.mp h5 with h6 | h6
    · exact he h6
    · simp at h6
  have hsplit : splitOnChar 'x' (w ++ 'x' :: h) = [w, h] := by
    rw [splitOnChar_app 'x' w h hxw, splitOnChar_not_mem 'x' h hxh]
  -- first index of '-' in w
  have hdw : idxOf? '-' w = some (a.length + 1) := by
    have : w = ('{' :: a) ++ '-' :: (b ++ ',' :: (s ++ ['}'])) := by
      rw [hw]; simp
    rw [this, idxOf?_app]
    · simp
    · intro hmem
      rcases List.mem_cons.mp hmem with h1 | h1
      · exact absurd h1.symm (by decide)
      · exact digit_ne_dash (ha _ h1) rfl
  -- first index of ',' in w
  have hcw : idxOf? ',' w = some (a.length + b.length + 2) := by
    have : w = ('{' :: (a ++ '-' :: b)) ++ ',' :: (s ++ ['}']) := by
      rw [hw]; simp
    rw [this, idxOf?_app]
    · simp; omega
    · intro hmem
      rcases List.mem_cons.mp hmem with h1 | h1
      · exact absurd h1.symm (by decide)
      rcases List.mem_append.mp h1 with h2 | h2
      · exact digit_ne_comma (ha _ h2) rfl
      rcases List.mem_cons.mp h2 with h3 | h3
      · exact absurd h3.symm (by decide)
      · exact digit_ne_comma (hb _ h3) rfl
  have hdh : idxOf? '-' h = some (c.length + 1) := by
    have : h = ('{' :: c) ++ '-' :: (d ++ ',' :: (e ++ ['}'])) := by
      rw [hh]; simp
    rw [this, idxOf?_app]
    · simp
    · intro hmem
      rcases List.mem_cons.mp hmem with h1 | h1
      · exact absurd h1.symm (by decide)
      · exact digit_ne_dash (hc _ h1) rfl
  have hch : idxOf? ',' h = some (c.length + d.length + 2) := by
    have : h = ('{' :: (c ++ '-' :: d)) ++ ',' :: (e ++ ['}']) := by
      rw [hh]; simp
    rw [this, idxOf?_app]
    · simp; omega
    · intro hmem
      rcases List.mem_cons.mp hmem with h1 | h1
      · exact absurd h1.symm (by decide)
      rcases List.mem_append.mp h1 with h2 | h2
      · exact digit_ne_comma (hc _ h2) rfl
      rcases List.mem_cons.mp h2 with h3 | h3
      · exact absurd h3.symm (by decide)
      · exact digit_ne_comma (hd _ h3) rfl
  -- the extracted substrings are exactly b and d
  have hslicew : (w.drop (a.length + 1 + 1)).take (a.length + b.length + 2 - (a.length + 1 + 1)) = b := by
    have hw2 : w = ('{' :: (a ++ ['-'])) ++ (b ++ ',' :: (s ++ ['}'])) := by
      rw [hw]; simp
    have hlen : ('{' :: (a ++ ['-'])).length = a.length + 1 + 1 := by simp
    rw [hw2, ← hlen, List.drop_left]
    have : a.length + b.length + 2 - (a.length + 1 + 1) = b.length := by omega
    rw [hlen, this, List.take_left]
  have hsliceh : (h.drop (c.length + 1 + 1)).take (c.length + d.length + 2 - (c.length + 1 + 1)) = d := by
    have hh2 : h = ('{' :: (c ++ ['-'])) ++ (d ++ ',' :: (e ++ ['}'])) := by
      rw [hh]; simp
    have hlen : ('{' :: (c ++ ['-'])).length = c.length + 1 + 1 := by simp
    rw [hh2, ← hlen, List.drop_left]
    have : c.length + d.length + 2 - (c.length + 1 + 1) = d.length := by omega
    rw [hlen, this, List.take_left]
  rw [get_best_resolution, if_pos hbrace, hsplit]
  simp only [hdw, hcw, hdh, hch, hslicew, hsliceh,
    pyInt?_digits b hb0 hb]
  by_cases hlt : digitsVal b < 2000
  · rw [if_pos (by exact_mod_cast hlt), if_pos hlt]
  · rw [if_neg (by exact_mod_cast hlt), if_neg hlt]

/-- Witness for C2 at the sample line `{32-2592, 2}x{32-1944, 2}` (upper
bound 2592 ≥ 2000, so the clamp fires). -/
theorem C2_range_resolution_witness :
    get_best_resolution
        (('{' :: ("32".data ++ '-' :: ("2592".data ++ ',' :: (" 2".data ++ ['}']))))
          ++ 'x' :: ('{' :: ("32".data ++ '-' :: ("1944".data ++ ',' :: (" 2".data ++ ['}']))))) =
      some (if digitsVal "2592".data < 2000 then "2592".data ++ 'x' :: "1944".data
            else "1920x1080".data) :=
  C2_range_resolution "32".data "2592".data "32".data "1944".data " 2".data " 2".data
    (by decide) (by decide) (by decide) (by decide) (by decide) (by decide)
    (by decide) (by decide)

/-! ## Claim C3: enumerated-form resolution strings -/

theorem pySplitWsAux_app (tok l cur : List Char) (h : ∀ c ∈ tok, c.isWhitespace = false) :
    pySplitWsAux (tok ++ l) cur = pySplitWsAux l (tok.reverse ++ cur) := by
  induction tok generalizing cur with
  | nil => simp
  | cons c rest ih =>
    have hc : c.isWhitespace = false := h c (List.mem_cons_self c rest)
    have hr : ∀ ch ∈ rest, ch.isWhitespace = false := fun ch hm => h ch (List.mem_cons_of_mem c hm)
    simp [pySplitWsAux, hc, ih _ hr]

theorem pySplitWs_sepJoin (toks : List (List Char))
    (h1 : ∀ t ∈ toks, t ≠ []) (h2 : ∀ t ∈ toks, ∀ c ∈ t, c.isWhitespace = false) :
    pySplitWs (sepJoin ' ' toks) = toks := by
  induction toks with
  | nil => rfl
  | cons t ts ih =>
    have ht1 : t ≠ [] := h1 t (List.mem_cons_self t ts)
    have ht2 : ∀ c ∈ t, c.isWhitespace = false := h2 t (List.mem_cons_self t ts)
    match ts with
    | [] =>
      show pySplitWsAux t [] = [t]
      have happ := pySplitWsAux_app t [] [] ht2
      rw [List.append_nil] at happ
      rw [happ]
      have hrev : t.reverse ≠ [] := by simpa using ht1
      simp [pySplitWsAux, hrev]
    | t' :: ts' =>
      have hj : sepJoin ' ' (t :: t' :: ts') = t ++ ' ' :: sepJoin ' ' (t' :: ts') := rfl
      show pySplitWs (sepJoin ' ' (t :: t' :: ts')) = t :: t' :: ts'
      rw [hj]
      show pySplitWsAux (t ++ ' ' :: sepJoin ' ' (t' :: ts')) [] = t :: t' :: ts'
      rw [pySplitWsAux_app t _ [] ht2]
      have hne : t.reverse ++ ([] : List Char) ≠ [] := by simpa using ht1
      have hws : (' ' : Char).isWhitespace = true := by decide
      show pySplitWsAux (' ' :: sepJoin ' ' (t' :: ts')) (t.reverse ++ []) = t :: t' :: ts'
      rw [pySplitWsAux, if_pos hws, if_neg hne]
      have := ih (fun x hx => h1 x (List.mem_cons_of_mem t hx))
        (fun x hx => h2 x (List.mem_cons_of_mem t hx))
      simp only [List.append_nil, List.reverse_reverse]
      exact congrArg (t :: ·) this

theorem mem_sepJoin {c : Char} {sep : Char} {toks : List (List Char)}
    (h : c ∈ sepJoin sep toks) : c = sep ∨ ∃ t ∈ toks, c ∈ t := by
  induction toks with
  | nil => simp [sepJoin] at h
  | cons t ts ih =>
    match ts with
    | [] =>
      exact Or.inr ⟨t, List.mem_cons_self t [], h⟩
    | t' :: ts' =>
      have hj : sepJoin sep (t :: t' :: ts') = t ++ sep :: sepJoin sep (t' :: ts') := rfl
      rw [hj] at h
      rcases List.mem_append.mp h with h1 | h1
      · exact Or.inr ⟨t, List.mem_cons_self t _, h1⟩
      rcases List.mem_cons.mp h1 with h2 | h2
      · exact Or.inl h2
      rcases ih h2 with h3 | ⟨u, hu, hcu⟩
      · exact Or.inl h3
      · exact Or.inr ⟨u, List.mem_cons_of_mem t hu, hcu⟩

/-- The token fold of the enumerated branch equals the pair fold over the
successfully parsed tokens. -/
theorem foldl_tokParse (ts : List (List Char)) (acc : Int × Int) :
    ts.foldl
      (fun acc t =>
        match tokParse t with
        | some wh => if wh.1 * wh.2 > acc.1 * acc.2 then wh else acc
        | none => acc) acc
    = (ts.filterMap tokParse).foldl
        (fun acc q => if q.1 * q.2 > acc.1 * acc.2 then q else acc) acc := by
  induction ts generalizing acc with
  | nil => rfl
  | cons t ts ih =>
    cases htk : tokParse t with
    | none => simp [List.filterMap_cons, htk, ih]
    | some wh => simp [List.filterMap_cons, htk, ih]

theorem bestFold_acc (ps : List (Int × Int)) (acc : Int × Int) :
    acc.1 * acc.2 ≤
      (ps.foldl (fun acc q => if q.1 * q.2 > acc.1 * acc.2 then q else acc) acc).1 *
      (ps.foldl (fun acc q => if q.1 * q.2 > acc.1 * acc.2 then q else acc) acc).2 := by
  induction ps generalizing acc with
  | nil => exact le_refl _
  | cons q ps ih =>
    by_cases hq : q.1 * q.2 > acc.1 * acc.2
    · calc acc.1 * acc.2 ≤ q.1 * q.2 := le_of_lt hq
        _ ≤ _ := by simpa [List.foldl_cons, if_pos hq] using ih q
    · simpa [List.foldl_cons, if_neg hq] using ih acc

theorem bestFold_ge (ps : List (Int × Int)) (acc : Int × Int) :
    ∀ q ∈ ps, q.1 * q.2 ≤
      (ps.foldl (fun acc q => if q.1 * q.2 > acc.1 * acc.2 then q else acc) acc).1 *
      (ps.foldl (fun acc q => if q.1 * q.2 > acc.1 * acc.2 then q else acc) acc).2 := by
  induction ps generalizing acc with
  | nil => intro q hq; simp at hq
  | cons p ps ih =>
    intro q hq
    rcases List.mem_cons.mp hq with rfl | hmem
    · by_cases hp : q.1 * q.2 > acc.1 * acc.2
      · simpa [List.foldl_cons, if_pos hp] using bestFold_acc ps q
      · have h1 : q.1 * q.2 ≤ acc.1 * acc.2 := not_lt.mp hp
        exact le_trans h1 (by simpa [List.foldl_cons, if_neg hp] using bestFold_acc ps acc)
    · by_cases hp : p.1 * p.2 > acc.1 * acc.2
      · simpa [List.foldl_cons, if_pos hp] using ih p q hmem
      · simpa [List.foldl_cons, if_neg hp] using ih acc q hmem

theorem bestFold_mem (ps : List (Int × Int)) (acc : Int × Int) :
    ps.foldl (fun acc q => if q.1 * q.2 > acc.1 * acc.2 then q else acc) acc = acc ∨
    ps.foldl (fun acc q => if q.1 * q.2 > acc.1 * acc.2 then q else acc) acc ∈ ps := by
  induction ps generalizing acc with
  | nil => exact Or.inl rfl
  | cons p ps ih =>
    by_cases hp : p.1 * p.2 > acc.1 * acc.2
    · rcases ih p with h | h
      · exact Or.inr (by rw [List.foldl_cons, if_pos hp, h]; exact List.mem_cons_self p ps)
      · exact Or.inr (by rw [List.foldl_cons, if_pos hp]; exact List.mem_cons_of_mem p h)
    · rcases ih acc with h | h
      · exact Or.inl (by rw [List.foldl_cons, if_neg hp, h])
      · exact Or.inr (by rw [List.foldl_cons, if_neg hp]; exact List.mem_cons_of_mem p h)

/-- **C3 counterexample.**  On the enumerated-form string `"0x0"` — one
parseable token, hence the token with greatest area, whose width 0 is below
2000 — the parser returns `"1920x1080"`, not the token `"0x0"` as the claim
states (the source's final truthiness test `... and bw` rejects a zero
width). -/
theorem C3_counterexample :
    get_best_resolution "0x0".data = some ("1920x1080".data) ∧
      "1920x1080".data ≠ "0x0".data := by
  constructor
  · decide
  · decide

/-- **C3** (corrected).  For every enumerated-form resolution string (a
space-separated list of non-empty tokens free of whitespace and of braces),
the parser folds over the parseable tokens keeping the first pair of greatest
area `w*h` (seeded with `(0, 0)`): the kept pair has maximal area among all
parseable tokens and is one of them unless it is the seed; the parser returns
that pair re-rendered in canonical decimal as `"{w}x{h}"`, except that it
returns `"1920x1080"` when the kept width is ≥ 2000 **or the kept width is
zero** (in particular when no token parses, or the best area is zero). -/
theorem C3_enumerated_resolution (toks : List (List Char))
    (h1 : ∀ t ∈ toks, t ≠ [])
    (h2 : ∀ t ∈ toks, ∀ c ∈ t, c.isWhitespace = false)
    (h3 : ∀ t ∈ toks, '{' ∉ t) :
    (∀ q ∈ toks.filterMap tokParse,
        q.1 * q.2 ≤ (bestArea (toks.filterMap tokParse)).1 * (bestArea (toks.filterMap tokParse)).2) ∧
    (bestArea (toks.filterMap tokParse) ∈ toks.filterMap tokParse ∨
        bestArea (toks.filterMap tokParse) = ((0 : Int), (0 : Int))) ∧
    get_best_resolution (sepJoin ' ' toks) =
      some (if (bestArea (toks.filterMap tokParse)).1 < 2000 ∧
                (bestArea (toks.filterMap tokParse)).1 ≠ 0
            then intToStr (bestArea (toks.filterMap tokParse)).1 ++
                   'x' :: intToStr (bestArea (toks.filterMap tokParse)).2
            else "1920x1080".data) := by
  refine ⟨bestFold_ge _ _, ?_, ?_⟩
  · unfold bestArea
    exact Or.symm (bestFold_mem _ _)
  have hbrace : '{' ∉ sepJoin ' ' toks := by
    intro hin
    rcases mem_sepJoin hin with h | ⟨t, ht, hct⟩
    · exact absurd h (by decide)
    · exact h3 t ht hct
  rw [get_best_resolution, if_neg hbrace, pySplitWs_sepJoin toks h1 h2, foldl_tokParse]
  rfl

/-- Witness for C3 on the token list `["640x480", "1280x720"]`. -/
theorem C3_enumerated_resolution_witness :
    (∀ q ∈ ["640x480".data, "1280x720".data].filterMap tokParse,
        q.1 * q.2 ≤ (bestArea (["640x480".data, "1280x720".data].filterMap tokParse)).1 *
          (bestArea (["640x480".data, "1280x720".data].filterMap tokParse)).2) ∧
    (bestArea (["640x480".data, "1280x720".data].filterMap tokParse) ∈
        ["640x480".data, "1280x720".data].filterMap tokParse ∨
      bestArea (["640x480".data, "1280x720".data].filterMap tokParse) = ((0 : Int), (0 : Int))) ∧
    get_best_resolution (sepJoin ' ' ["640x480".data, "1280x720".data]) =
      some (if (bestArea (["640x480".data, "1280x720".data].filterMap tokParse)).1 < 2000 ∧
                (bestArea (["640x480".data, "1280x720".data].filterMap tokParse)).1 ≠ 0
            then intToStr (bestArea (["640x480".data, "1280x720".data].filterMap tokParse)).1 ++
                   'x' :: intToStr (bestArea (["640x480".data, "1280x720".data].filterMap tokParse)).2
            else "1920x1080".data) :=
  C3_enumerated_resolution ["640x480".data, "1280x720".data]
    (by decide) (by decide) (by decide)

/-! ## Claims C1 and C5: the device selector -/

theorem hasFmt_nil (f : List Char) : hasFmt ([] : FormatMap) f = false := rfl

theorem selStep_cases (cb d : List Char × FormatMap) :
    selStep cb d = cb ∨ (d.2 ≠ ([] : FormatMap) ∧ selStep cb d = d) := by
  unfold selStep
  by_cases h1 : d.2 = ([] : FormatMap)
  · rw [if_pos h1]; exact Or.inl rfl
  · rw [if_neg h1]
    by_cases h2 : hasFmt d.2 "h264".data = true
    · rw [if_pos h2]; exact Or.inr ⟨h1, rfl⟩
    · rw [if_neg h2]
      by_cases h3 : ¬ hasFmt cb.2 "h264".data = true
      · rw [if_pos h3]; exact Or.inr ⟨h1, rfl⟩
      · rw [if_neg h3]; exact Or.inl rfl

theorem selFold_mem (devs : List (List Char × FormatMap)) (cb : List Char × FormatMap) :
    devs.foldl selStep cb = cb ∨
      ∃ d ∈ devs, d.2 ≠ ([] : FormatMap) ∧ devs.foldl selStep cb = d := by
  induction devs generalizing cb with
  | nil => exact Or.inl rfl
  | cons d rest ih =>
    rw [List.foldl_cons]
    rcases selStep_cases cb d with h | ⟨hne, h⟩
    · rw [h]
      rcases ih cb with h2 | ⟨e, he, hene, h2⟩
      · exact Or.inl h2
      · exact Or.inr ⟨e, List.mem_cons_of_mem d he, hene, h2⟩
    · rw [h]
      rcases ih d with h2 | ⟨e, he, hene, h2⟩
      · exact Or.inr ⟨d, List.mem_cons_self d rest, hne, h2⟩
      · exact Or.inr ⟨e, List.mem_cons_of_mem d he, hene, h2⟩

theorem selFold_pres (devs : List (List Char × FormatMap)) (cb : List Char × FormatMap)
    (h : hasFmt cb.2 "h264".data = true) :
    hasFmt (devs.foldl selStep cb).2 "h264".data = true := by
  induction devs generalizing cb with
  | nil => exact h
  | cons d rest ih =>
    rw [List.foldl_cons]
    unfold selStep
    by_cases h1 : d.2 = ([] : FormatMap)
    · rw [if_pos h1]; exact ih cb h
    · rw [if_neg h1]
      by_cases h2 : hasFmt d.2 "h264".data = true
      · rw [if_pos h2]; exact ih d h2
      · rw [if_neg h2]
        by_cases h3 : ¬ hasFmt cb.2 "h264".data = true
        · exact absurd h (by simpa using h3)
        · rw [if_neg h3]; exact ih cb h

theorem selFold_h264 (devs : List (List Char × FormatMap)) (cb : List Char × FormatMap)
    (h : ∃ d ∈ devs, hasFmt d.2 "h264".data = true) :
    hasFmt (devs.foldl selStep cb).2 "h264".data = true := by
  induction devs generalizing cb with
  | nil => simp at h
  | cons d rest ih =>
    rw [List.foldl_cons]
    rcases h with ⟨e, he, hef⟩
    rcases List.mem_cons.mp he with rfl | hmem
    · have hne : e.2 ≠ ([] : FormatMap) := by
        intro h0
        rw [h0, hasFmt_nil] at hef
        exact absurd hef (by decide)
      have hstep : selStep cb e = e := by
        unfold selStep
        rw [if_neg hne, if_pos hef]
      rw [hstep]
      exact selFold_pres rest e hef
    · exact ih _ ⟨e, hmem, hef⟩

theorem selFold_valid (devs : List (List Char × FormatMap)) (cb : List Char × FormatMap)
    (hcb : cb.2 = ([] : FormatMap)) (h : ∃ d ∈ devs, d.2 ≠ ([] : FormatMap)) :
    ∃ d ∈ devs, d.2 ≠ ([] : FormatMap) ∧ devs.foldl selStep cb = d := by
  induction devs generalizing cb with
  | nil => simp at h
  | cons d rest ih =>
    rw [List.foldl_cons]
    by_cases hd : d.2 = ([] : FormatMap)
    · have hstep : selStep cb d = cb := by unfold selStep; rw [if_pos hd]
      rw [hstep]
      rcases h with ⟨e, he, hene⟩
      rcases List.mem_cons.mp he with rfl | hmem
      · exact absurd hd hene
      · rcases ih cb hcb ⟨e, hmem, hene⟩ with ⟨u, hu, hune, hueq⟩
        exact ⟨u, List.mem_cons_of_mem d hu, hune, hueq⟩
    · have hcbf : hasFmt cb.2 "h264".data = false := by rw [hcb, hasFmt_nil]
      have hstep : selStep cb d = d := by
        unfold selStep
        rw [if_neg hd]
        by_cases h264 : hasFmt d.2 "h264".data = true
        · rw [if_pos h264]
        · rw [if_neg h264, if_pos]
          simp [hcbf]
      rw [hstep]
      rcases selFold_mem rest d with h2 | ⟨e, he, hene, h2⟩
      · exact ⟨d, List.mem_cons_self d rest, hd, h2⟩
      · exact ⟨e, List.mem_cons_of_mem d he, hene, h2⟩

/-- **C1** (confirmed).  For every enumeration order of candidate devices
(non-empty paths, at least one candidate with a non-empty format map), the
selector returns a tuple taken from an actual candidate `d` such that:
`d` offers `h264` whenever any candidate does (so `h264`-capable devices beat
all others regardless of discovery order); the returned format is the first
of the fixed priority tuple `h264 > mjpeg > yuyv422 > yuv420p` present on
`d`, together with that format's recorded resolution; and when none of the
four is present, the returned format/resolution is `d`'s first-enumerated
entry. -/
theorem C1_find_best_device (devs : List (List Char × FormatMap))
    (hpath : ∀ d ∈ devs, d.1 ≠ [])
    (hex : ∃ d ∈ devs, d.2 ≠ ([] : FormatMap)) :
    ∃ d ∈ devs, d.2 ≠ ([] : FormatMap) ∧
      ((∃ e ∈ devs, hasFmt e.2 "h264".data = true) → hasFmt d.2 "h264".data = true) ∧
      ((∃ f ∈ priorityFormats, hasFmt d.2 f = true) →
        ∃ f r, priorityFormats.find? (fun g => hasFmt d.2 g) = some f ∧
          lookupK f d.2 = some r ∧ find_best_device devs = some (d.1, f, r)) ∧
      ((∀ f ∈ priorityFormats, hasFmt d.2 f = false) →
        ∃ f r rest, d.2 = (f, r) :: rest ∧ find_best_device devs = some (d.1, f, r)) := by
  obtain ⟨d, hd, hdne, heq⟩ :=
    selFold_valid devs (([] : List Char), ([] : FormatMap)) rfl hex
  refine ⟨d, hd, hdne, ?_, ?_, ?_⟩
  · intro ⟨e, he, hef⟩
    have := selFold_h264 devs (([] : List Char), ([] : FormatMap)) ⟨e, he, hef⟩
    rwa [heq] at this
  · intro ⟨f, hf, hfs⟩
    have hisSome : (priorityFormats.find? (fun g => hasFmt d.2 g)).isSome := by
      rw [List.find?_isSome]
      exact ⟨f, hf, hfs⟩
    obtain ⟨f', hfind⟩ := Option.isSome_iff_exists.mp hisSome
    have hpf : hasFmt d.2 f' = true := List.find?_some hfind
    obtain ⟨r, hr⟩ := Option.isSome_iff_exists.mp hpf
    refine ⟨f', r, hfind, hr, ?_⟩
    have hpick : pickFormat d.2 = some (f', r) := by
      unfold pickFormat
      rw [hfind]
      simp [hr]
    rw [find_best_device]
    simp only [heq]
    rw [if_neg (hpath d hd), hpick]
    rfl
  · intro hall
    have hfind : priorityFormats.find? (fun g => hasFmt d.2 g) = none := by
      rw [List.find?_eq_none]
      intro x hx
      simp [hall x hx]
    match hm : d.2 with
    | [] => exact absurd hm hdne
    | (f, r) :: rest =>
      refine ⟨f, r, rest, rfl, ?_⟩
      have hpick : pickFormat d.2 = some (f, r) := by
        unfold pickFormat
        rw [hfind, hm]
        rfl
      rw [find_best_device]
      simp only [heq]
      rw [if_neg (hpath d hd), hpick]
      rfl

/-- Witness for C1 on the spec's sample:
`{video1: {mjpeg: 640x480}, video2: {h264: 1920x1080, mjpeg: 640x480}}`. -/
theorem C1_find_best_device_witness :
    ∃ d ∈ [("/dev/video1".data, ([("mjpeg".data, "640x480".data)] : FormatMap)),
           ("/dev/video2".data,
             ([("h264".data, "1920x1080".data), ("mjpeg".data, "640x480".data)] : FormatMap))],
      d.2 ≠ ([] : FormatMap) ∧
      ((∃ e ∈ [("/dev/video1".data, ([("mjpeg".data, "640x480".data)] : FormatMap)),
               ("/dev/video2".data,
                 ([("h264".data, "1920x1080".data), ("mjpeg".data, "640x480".data)] : FormatMap))],
          hasFmt e.2 "h264".data = true) → hasFmt d.2 "h264".data = true) ∧
      ((∃ f ∈ priorityFormats, hasFmt d.2 f = true) →
        ∃ f r, priorityFormats.find? (fun g => hasFmt d.2 g) = some f ∧
          lookupK f d.2 = some r ∧
          find_best_device
            [("/dev/video1".data, ([("mjpeg".data, "640x480".data)] : FormatMap)),
             ("/dev/video2".data,
               ([("h264".data, "1920x1080".data), ("mjpeg".data, "640x480".data)] : FormatMap))] =
            some (d.1, f, r)) ∧
      ((∀ f ∈ priorityFormats, hasFmt d.2 f = false) →
        ∃ f r rest, d.2 = (f, r) :: rest ∧
          find_best_device
            [("/dev/video1".data, ([("mjpeg".data, "640x480".data)] : FormatMap)),
             ("/dev/video2".data,
               ([("h264".data, "1920x1080".data), ("mjpeg".data, "640x480".data)] : FormatMap))] =
            some (d.1, f, r)) := by
  exact C1_find_best_device _ (by decide) (by decide)

/-- **C5 counterexample.**  With zero enumerable devices the selector does
return the hard-coded fallback tuple, but the emitted log/advisory trace is
empty: the source of `find_best_device` contains no logging, raising or
advisory whatsoever (only the comment `# Assume user will connect pi
camera`), so no "no camera detected" advisory is raised, contradicting the
claim's second half. -/
theorem C5_counterexample :
    find_best_device_logged [] =
      (some ("/dev/video0".data, "h264".data, "1920x1080".data), ([] : List (List Char))) := by
  decide

/-- **C5** (corrected).  Whenever every enumerated candidate has an empty
format map (in particular when there are no candidates at all), the selector
silently returns exactly `("/dev/video0", "h264", "1920x1080")`; no advisory
of any kind is emitted. -/
theorem C5_fallback_silent (devs : List (List Char × FormatMap))
    (h : ∀ d ∈ devs, d.2 = ([] : FormatMap)) :
    find_best_device_logged devs =
      (some ("/dev/video0".data, "h264".data, "1920x1080".data), ([] : List (List Char))) := by
  have hfold : devs.foldl selStep (([] : List Char), ([] : FormatMap)) =
      (([] : List Char), ([] : FormatMap)) := by
    induction devs with
    | nil => rfl
    | cons d rest ih =>
      rw [List.foldl_cons]
      have hstep : selStep (([] : List Char), ([] : FormatMap)) d =
          (([] : List Char), ([] : FormatMap)) := by
        unfold selStep
        rw [if_pos (h d (List.mem_cons_self d rest))]
      rw [hstep]
      exact ih (fun e he => h e (List.mem_cons_of_mem d he))
  unfold find_best_device_logged find_best_device
  rw [hfold]
  rfl

/-- Witness for C5 at a single candidate whose probe yielded nothing. -/
theorem C5_fallback_silent_witness :
    find_best_device_logged [("/dev/video9".data, ([] : FormatMap))] =
      (some ("/dev/video0".data, "h264".data, "1920x1080".data), ([] : List (List Char))) :=
  C5_fallback_silent [("/dev/video9".data, ([] : FormatMap))] (by decide)

/-! ## Claims C6 and C8: the anchored rc.local patch -/

theorem sepJoin_cons (sep : Char) (t : List Char) (ts : List (List Char)) (h : ts ≠ []) :
    sepJoin sep (t :: ts) = t ++ sep :: sepJoin sep ts := by
  match ts with
  | [] => exact absurd rfl h
  | t' :: ts' => rfl

theorem splitlinesAux_app (a y cur : List Char) (h : '\n' ∉ a) :
    splitlinesAux (a ++ '\n' :: y) cur = (cur.reverse ++ a) :: splitlinesAux y [] := by
  induction a generalizing cur with
  | nil => simp [splitlinesAux]
  | cons c rest ih =>
    have hc : c ≠ '\n' := fun hc => h (hc ▸ List.mem_cons_self c rest)
    have hr : '\n' ∉ rest := fun hr => h (List.mem_cons_of_mem c hr)
    simp [splitlinesAux, hc, ih _ hr]

theorem splitlines_app (a y : List Char) (h : '\n' ∉ a) :
    splitlines (a ++ '\n' :: y) = a :: splitlines y := by
  simp [splitlines, splitlinesAux_app a y [] h]

theorem splitlinesAux_no_nl (s cur : List Char) (hcur : '\n' ∉ cur) :
    ∀ l ∈ splitlinesAux s cur, '\n' ∉ l := by
  induction s generalizing cur with
  | nil =>
    intro l hl
    by_cases hc : cur = []
    · simp [splitlinesAux, hc] at hl
    · rw [splitlinesAux, if_neg hc] at hl
      rcases List.mem_singleton.mp hl with rfl
      simpa using hcur
  | cons c rest ih =>
    intro l hl
    by_cases hc : c = '\n'
    · rw [splitlinesAux, if_pos hc] at hl
      rcases List.mem_cons.mp hl with rfl | hmem
      · simpa using hcur
      · exact ih [] (by simp) l hmem
    · rw [splitlinesAux, if_neg hc] at hl
      refine ih (c :: cur) ?_ l hl
      intro hmem
      rcases List.mem_cons.mp hmem with h1 | h1
      · exact hc h1.symm
      · exact hcur h1

theorem splitlines_no_nl (s : List Char) : ∀ l ∈ splitlines s, '\n' ∉ l :=
  splitlinesAux_no_nl s [] (by simp)

/-- A line that sits strictly inside a joined line list — non-empty prefix of
newline-free lines, the line itself newline-free, non-empty tail — survives
`splitlines ∘ sepJoin`. -/
theorem mem_splitlines_sepJoin (A : List (List Char)) (m : List Char) (B : List (List Char))
    (hA : A ≠ []) (hB : B ≠ []) (hAnl : ∀ l ∈ A, '\n' ∉ l) (hm : '\n' ∉ m) :
    m ∈ splitlines (sepJoin '\n' (A ++ m :: B)) := by
  induction A with
  | nil => exact absurd rfl hA
  | cons a A' ih =>
    have ha : '\n' ∉ a := hAnl a (List.mem_cons_self a A')
    match A' with
    | [] =>
      match B with
      | [] => exact absurd rfl hB
      | b :: B' =>
        have h1 : ([a] ++ m :: b :: B') = a :: m :: b :: B' := rfl
        rw [h1, sepJoin_cons '\n' a _ (by simp), sepJoin_cons '\n' m _ (by simp),
          splitlines_app a _ ha, splitlines_app m _ hm]
        exact List.mem_cons_of_mem a (List.mem_cons_self m _)
    | a' :: A'' =>
      have h1 : ((a :: a' :: A'') ++ m :: B) = a :: ((a' :: A'') ++ m :: B) := rfl
      rw [h1, sepJoin_cons '\n' a _ (by simp), splitlines_app a _ ha]
      refine List.mem_cons_of_mem a ?_
      exact ih (by simp) (fun l hl => hAnl l (List.mem_cons_of_mem a hl))

theorem idxOf?_ne_nil {α : Type} [DecidableEq α] {a : α} {l : List α} {i : Nat}
    (h : idxOf? a l = some i) : l ≠ [] := by
  intro h0
  rw [h0] at h
  exact absurd h (by simp [idxOf?])

/-- **C6** (confirmed).  The anchored rc.local patch is idempotent on file
content: whenever one application succeeds and produces content `c1`, a
second application returns `c1` unchanged (the unique marker line
`# Streaming Shared Memory Setup` is detected). -/
theorem C6_rc_local_idempotent (d : Bool) (f c c1 : List Char)
    (h : update_rc_local_file d f c = some c1) :
    update_rc_local_file d f c1 = some c1 := by
  have hmarker_nl : '\n' ∉ "# Streaming Shared Memory Setup".data := by decide
  by_cases hmark : "# Streaming Shared Memory Setup".data ∈ splitlines c
  · rw [update_rc_local_file, if_pos hmark] at h
    obtain rfl : c = c1 := Option.some.inj h
    rw [update_rc_local_file, if_pos hmark]
  · rw [update_rc_local_file, if_neg hmark] at h
    cases hidx : idxOf? "exit 0".data (splitlines c) with
    | none => rw [hidx] at h; exact absurd h (by simp)
    | some i =>
      simp only [hidx] at h
      have hcontents : splitlines c ≠ [] := idxOf?_ne_nil hidx
      by_cases hi : i > 0
      · rw [if_pos hi] at h
        obtain rfl : _ = c1 := Option.some.inj h
        have htake : (splitlines c).take i ≠ [] := by
          intro h0
          rcases List.take_eq_nil_iff.mp h0 with h1 | h1
          · omega
          · exact hcontents h1
        have hmem : "# Streaming Shared Memory Setup".data ∈
            splitlines (sepJoin '\n'
              ((splitlines c).take i ++ rc_local_update f ++ (splitlines c).drop i)) := by
          have hshape : (splitlines c).take i ++ rc_local_update f ++ (splitlines c).drop i
              = (splitlines c).take i ++ "# Streaming Shared Memory Setup".data ::
                  (("if [ -f ".data ++ f ++ " ]; then".data) ::
                   ("    /bin/bash ".data ++ f ++ " || true".data) ::
                   "fi".data :: (splitlines c).drop i) := by
            simp [rc_local_update]
          rw [hshape]
          exact mem_splitlines_sepJoin _ _ _ htake (by simp)
            (fun l hl => splitlines_no_nl c l (List.take_subset i (splitlines c) hl))
            hmarker_nl
        rw [update_rc_local_file, if_pos hmem]
      · rw [if_neg hi] at h
        by_cases hd : d = true
        · rw [if_pos hd] at h
          obtain rfl : c = c1 := Option.some.inj h
          rw [update_rc_local_file, if_neg hmark]
          simp only [hidx]
          rw [if_neg hi, if_pos hd]
        · rw [if_neg hd] at h
          obtain rfl : _ = c1 := Option.some.inj h
          have hmem : "# Streaming Shared Memory Setup".data ∈
              splitlines (sepJoin '\n' (splitlines c ++ rc_local_update f)) := by
            have hshape : splitlines c ++ rc_local_update f
                = splitlines c ++ "# Streaming Shared Memory Setup".data ::
                    [("if [ -f ".data ++ f ++ " ]; then".data),
                     ("    /bin/bash ".data ++ f ++ " || true".data),
                     "fi".data] := by
              simp [rc_local_update]
            rw [hshape]
            exact mem_splitlines_sepJoin _ _ _ hcontents (by simp)
              (splitlines_no_nl c) hmarker_nl
          rw [update_rc_local_file, if_pos hmem]

/-- Witness for C6: one application to a minimal rc.local succeeds, and the
theorem yields that the second application is the identity on its output. -/
theorem C6_rc_local_idempotent_witness :
    update_rc_local_file false "/var/lib/streaming/setup_streaming.sh".data
        ((update_rc_local_file false "/var/lib/streaming/setup_streaming.sh".data
            "#!/bin/sh -e\nfoo\nexit 0".data).getD []) =
      some ((update_rc_local_file false "/var/lib/streaming/setup_streaming.sh".data
            "#!/bin/sh -e\nfoo\nexit 0".data).getD []) :=
  C6_rc_local_idempotent false "/var/lib/streaming/setup_streaming.sh".data
    "#!/bin/sh -e\nfoo\nexit 0".data _ (by decide)

/-- **C8** (code bug).  On a boot script containing neither the marker line
nor any `exit 0` line, the patch operation is *not* policy-gated: under both
policies `contents.index("exit 0")` raises an uncaught `ValueError`
(modelled as `none`), so neither the permissive append-with-warning nor the
strict refuse-with-warning path is reachable for a missing anchor — those
paths only run when `exit 0` is the *first* line.  The code's own warning
text ("Could not find usual spot … adding to end of file") shows the
fallback was intended for the missing-anchor case. -/
theorem C8_missing_anchor_raises :
    update_rc_local_file false "/var/lib/streaming/setup_streaming.sh".data "foo\nbar".data
        = none ∧
    update_rc_local_file true "/var/lib/streaming/setup_streaming.sh".data "foo\nbar".data
        = none := by
  constructor
  · decide
  · decide

/-! ## Claim C7: whole-file installers under the no-overwrite policy -/

/-- **C7 counterexample.**  With the destination present and overwrite
forbidden, the index installer does *not* always return without error: it
parses `video_size` before the overwrite check, so a malformed size (here
`"abc"`) raises an uncaught `ValueError` even though the file exists and the
policy forbids overwriting.  (The destination is still left untouched.) -/
theorem C7_counterexample :
    install_index_file true "abc".data (some ("old".data, 0o644)) = none := by
  decide

/-- **C7** (corrected).  With overwrite disabled and the destination already
present, none of the three installers writes: the on-reboot and systemd
installers return the prior file state byte-identically (content and
permission bits) and run no commands; the index installer likewise returns
the prior state unchanged whenever its `video_size` argument parses, and
otherwise propagates the parse error — still without touching the file. -/
theorem C7_skip_no_write (vs obf idxf sdf cmdline c1 c2 c3 : List Char) (p1 p2 p3 : Nat) :
    install_index_file true vs (some (c1, p1)) =
      (if (parse_video_size vs).isSome then some (some (c1, p1)) else none) ∧
    install_on_reboot_file true obf idxf (some (c2, p2)) = (some (c2, p2), []) ∧
    install_ffmpeg_systemd_file true sdf cmdline (some (c3, p3)) = (some (c3, p3), []) := by
  refine ⟨?_, rfl, rfl⟩
  cases hp : parse_video_size vs with
  | none => simp [install_index_file, hp]
  | some wh => simp [install_index_file, hp]

/-! ## Claim C9: rtsp release-asset selection for `armv7l` -/

/-- **C9 counterexample.**  With architecture `armv7l` and a release
offering only an `armv6`-tagged asset, the claimed `armv6`-substring
compatibility fallback does not exist: the installer maps `armv7l` through
the primary table to `"armv7"`, finds no asset containing it, and raises the
generic "Could not find download" error (which also does not enumerate the
available asset names). -/
theorem C9_counterexample :
    install_rtsp_select "armv7l".data
        ["rtsp-simple-server_v0.12.2_linux_armv6.tar.gz".data] =
      Except.error "Could not find download for rtsp server".data := by
  rfl

/-- **C9** (corrected).  For architecture `armv7l` the primary mapping table
already contains the key, so the legacy table is never consulted (it is only
reached when the architecture *key* is absent from the primary table, not on
asset-match failure); selection is simply the first asset whose name
contains `"armv7"`, and when none does the installer aborts with the fixed
error message `"Could not find download for rtsp server"` — with no `armv6`
fallback and no enumeration of asset names. -/
theorem C9_armv7_selection (assets : List (List Char)) :
    lookupK "armv7l".data primary_mappings = some "armv7".data ∧
    install_rtsp_select "armv7l".data assets =
      (match assets.find? (fun n => isSubstrOf "armv7".data n) with
       | some n => Except.ok n
       | none => Except.error "Could not find download for rtsp server".data) :=
  ⟨rfl, rfl⟩

/-! ## Claim C10: the `dynamick` bitrate quirk -/

/-- **C10** (confirmed).  Whenever the codec is not `copy`, the (stripped)
free-text parameters already contain the substring `-b`, and the bitrate
specifier is the literal `dynamic`, the synthesizer does not skip the
bitrate flag nor compute one from the resolution: it appends a second
bitrate flag with the literal value `dynamick` — the word `dynamic` with the
`k` unit suffix appended by the endswith-normalisation. -/
theorem C10_dynamick_flag (ifmt vs dev codec params fmt path : List Char) (hls : Bool)
    (hc : codec ≠ "copy".data)
    (hb : isSubstrOf "-b".data (if params = [] then params else stripQuotes params) = true)
    (hf : fmt = "dash".data ∨ fmt = "rtsp".data) :
    ∃ p, (if path = [] then default_paths fmt else some path) = some p ∧
      prepare_ffmpeg_command ifmt vs dev codec params fmt hls path "dynamic".data =
        some (assemble_command ifmt vs dev codec
          ((if params = [] then params else stripQuotes params) ++ " -b:v dynamick".data)
          ((out_clause fmt hls p).getD [])) := by
  have hpath : ∃ p, (if path = [] then default_paths fmt else some path) = some p := by
    by_cases hpe : path = []
    · rcases hf with rfl | rfl
      · exact ⟨_, by rw [if_pos hpe]; rfl⟩
      · exact ⟨_, by rw [if_pos hpe]; rfl⟩
    · exact ⟨path, by rw [if_neg hpe]⟩
  obtain ⟨p, hp⟩ := hpath
  refine ⟨p, hp, ?_⟩
  have hout : ∃ o, out_clause fmt hls p = some o := by
    rcases hf with rfl | rfl
    · exact ⟨_, by rw [out_clause, if_pos rfl]⟩
    · exact ⟨_, by rw [out_clause, if_neg (by decide), if_pos rfl]⟩
  obtain ⟨o, ho⟩ := hout
  set P := (if params = [] then params else stripQuotes params) with hP
  have hb2 : isSubstrOf ['-', 'b'] P = true := hb
  have hmkg2 : endsWithMKG ['d', 'y', 'n', 'a', 'm', 'i', 'c'] = false := by decide
  simp only [prepare_ffmpeg_command, hp]
  rw [if_pos hc]
  simp only [hb2, hmkg2, Bool.true_eq_false, false_and, and_true, Bool.false_eq_true,
    if_false, ho, Option.getD_some]
  rw [List.append_assoc, ← hP]
  exact rfl

/-- Witness for C10 with `-maxrate 2M -bufsize 4M` (which contains `-b`) as
free-text parameters and an `h264_omx` codec on the dash path. -/
theorem C10_dynamick_flag_witness :
    ∃ p, (if ([] : List Char) = [] then default_paths "dash".data else some []) = some p ∧
      prepare_ffmpeg_command "h264".data "1920x1080".data "/dev/video0".data "h264_omx".data
          "\"-maxrate 2M -bufsize 4M\"".data "dash".data false [] "dynamic".data =
        some (assemble_command "h264".data "1920x1080".data "/dev/video0".data "h264_omx".data
          ((if ("\"-maxrate 2M -bufsize 4M\"".data : List Char) = []
            then "\"-maxrate 2M -bufsize 4M\"".data
            else stripQuotes "\"-maxrate 2M -bufsize 4M\"".data) ++ " -b:v dynamick".data)
          ((out_clause "dash".data false p).getD [])) :=
  C10_dynamick_flag "h264".data "1920x1080".data "/dev/video0".data "h264_omx".data
    "\"-maxrate 2M -bufsize 4M\"".data "dash".data [] false
    (by decide) (by decide) (Or.inl rfl)

/-! ## Claim C4: the synthesizer never injects a pixel-format flag

Auxiliary theory: a space-free substring of the assembled command must come
from one of the space-separated pieces, and the double-space collapse
(`pyReplace`) cannot create new space-free substrings. -/

theorem sub_cons_of {t l : List Char} (c : Char) (h : t <:+: l) : t <:+: c :: l := by
  obtain ⟨u, v, rfl⟩ := h
  exact ⟨c :: u, v, rfl⟩

theorem pre_of_app_space {t : List Char} (l r : List Char) (ht : ' ' ∉ t)
    (h : t <+: l ++ ' ' :: r) : t <+: l := by
  induction l generalizing t with
  | nil =>
    match t, h with
    | [], _ => exact List.nil_prefix
    | a :: t', h =>
      have := (List.cons_prefix_cons.mp h).1
      exact absurd (this ▸ List.mem_cons_self a t') ht
  | cons c l' ih =>
    match t, h with
    | [], _ => exact List.nil_prefix
    | a :: t', h =>
      rw [List.cons_append] at h
      obtain ⟨rfl, hp'⟩ := List.cons_prefix_cons.mp h
      have ht' : ' ' ∉ t' := fun hm => ht (List.mem_cons_of_mem _ hm)
      exact List.cons_prefix_cons.mpr ⟨rfl, ih ht' hp'⟩

theorem sub_of_app_space {t : List Char} (l r : List Char) (ht : ' ' ∉ t)
    (h : t <:+: l ++ ' ' :: r) : t <:+: l ∨ t <:+: r := by
  induction l generalizing t with
  | nil =>
    rw [List.nil_append] at h
    rcases List.infix_cons_iff.mp h with hp | hi
    · match t, hp with
      | [], _ => exact Or.inl (List.nil_infix)
      | a :: t', hp =>
        have := (List.cons_prefix_cons.mp hp).1
        exact absurd (this ▸ List.mem_cons_self a t') ht
    · exact Or.inr hi
  | cons c l' ih =>
    rw [List.cons_append] at h
    rcases List.infix_cons_iff.mp h with hp | hi
    · match t, hp with
      | [], _ => exact Or.inl (List.nil_infix)
      | a :: t', hp =>
        obtain ⟨rfl, hp'⟩ := List.cons_prefix_cons.mp hp
        have ht' : ' ' ∉ t' := fun hm => ht (List.mem_cons_of_mem _ hm)
        exact Or.inl (List.cons_prefix_cons.mpr ⟨rfl, pre_of_app_space l' r ht' hp'⟩).isInfix
    · rcases ih ht hi with h1 | h1
      · exact Or.inl (sub_cons_of c h1)
      · exact Or.inr h1

theorem pre_pyReplace {t : List Char} (s : List Char) (ht : ' ' ∉ t)
    (h : t <+: pyReplace s) : t <+: s := by
  induction s using pyReplace.induct generalizing t with
  | case1 => simpa [pyReplace] using h
  | case2 c => simpa [pyReplace] using h
  | case3 c1 c2 rest hcond ih =>
    obtain ⟨rfl, rfl⟩ := hcond
    rw [pyReplace, if_pos ⟨rfl, rfl⟩] at h
    match t, h with
    | [], _ => exact List.nil_prefix
    | a :: t', h =>
      have := (List.cons_prefix_cons.mp h).1
      exact absurd (this ▸ List.mem_cons_self a t') ht
  | case4 c1 c2 rest hcond ih =>
    rw [pyReplace, if_neg hcond] at h
    match t, h with
    | [], _ => exact List.nil_prefix
    | a :: t', h =>
      obtain ⟨rfl, hp'⟩ := List.cons_prefix_cons.mp h
      have ht' : ' ' ∉ t' := fun hm => ht (List.mem_cons_of_mem _ hm)
      exact List.cons_prefix_cons.mpr ⟨rfl, ih ht' hp'⟩

theorem sub_pyReplace {t : List Char} (s : List Char) (ht : ' ' ∉ t)
    (h : t <:+: pyReplace s) : t <:+: s := by
  induction s using pyReplace.induct generalizing t with
  | case1 => simpa [pyReplace] using h
  | case2 c => simpa [pyReplace] using h
  | case3 c1 c2 rest hcond ih =>
    obtain ⟨rfl, rfl⟩ := hcond
    rw [pyReplace, if_pos ⟨rfl, rfl⟩] at h
    rcases List.infix_cons_iff.mp h with hp | hi
    · match t, hp with
      | [], _ => exact List.nil_infix
      | a :: t', hp =>
        have := (List.cons_prefix_cons.mp hp).1
        exact absurd (this ▸ List.mem_cons_self a t') ht
    · exact sub_cons_of ' ' (sub_cons_of ' ' (ih ht hi))
  | case4 c1 c2 rest hcond ih =>
    rw [pyReplace, if_neg hcond] at h
    rcases List.infix_cons_iff.mp h with hp | hi
    · match t, hp with
      | [], _ => exact List.nil_infix
      | a :: t', hp =>
        obtain ⟨rfl, hp'⟩ := List.cons_prefix_cons.mp hp
        have ht' : ' ' ∉ t' := fun hm => ht (List.mem_cons_of_mem _ hm)
        exact (List.cons_prefix_cons.mpr ⟨rfl, pre_pyReplace (c2 :: rest) ht' hp'⟩).isInfix
    · exact sub_cons_of c1 (ih ht hi)

theorem pre_app_single {t X : List Char} (c : Char) (h : t <+: X ++ [c]) :
    t <+: X ∨ ∃ t', t = t' ++ [c] := by
  induction X generalizing t with
  | nil =>
    match t, h with
    | [], _ => exact Or.inl List.nil_prefix
    | a :: t', h =>
      obtain ⟨rfl, hp'⟩ := List.cons_prefix_cons.mp h
      have : t' = [] := List.prefix_nil.mp hp'
      exact Or.inr ⟨[], by simp [this]⟩
  | cons x X' ih =>
    match t, h with
    | [], _ => exact Or.inl List.nil_prefix
    | a :: t', h =>
      rw [List.cons_append] at h
      obtain ⟨rfl, hp'⟩ := List.cons_prefix_cons.mp h
      rcases ih hp' with h1 | ⟨t'', rfl⟩
      · exact Or.inl (List.cons_prefix_cons.mpr ⟨rfl, h1⟩)
      · exact Or.inr ⟨a :: t'', rfl⟩

theorem sub_app_single {t X : List Char} (c : Char) (h : t <:+: X ++ [c]) :
    t <:+: X ∨ ∃ t', t = t' ++ [c] := by
  induction X generalizing t with
  | nil =>
    rw [List.nil_append] at h
    rcases List.infix_cons_iff.mp h with hp | hi
    · match t, hp with
      | [], _ => exact Or.inl List.nil_infix
      | a :: t', hp =>
        obtain ⟨rfl, hp'⟩ := List.cons_prefix_cons.mp hp
        have : t' = [] := List.prefix_nil.mp hp'
        exact Or.inr ⟨[], by simp [this]⟩
    · rw [List.infix_nil] at hi
      exact Or.inl (by rw [hi])
  | cons x X' ih =>
    rw [List.cons_append] at h
    rcases List.infix_cons_iff.mp h with hp | hi
    · match t, hp with
      | [], _ => exact Or.inl (List.nil_infix)
      | a :: t', hp =>
        obtain ⟨rfl, hp'⟩ := List.cons_prefix_cons.mp hp
        rcases pre_app_single c hp' with h1 | ⟨t'', rfl⟩
        · exact Or.inl (List.cons_prefix_cons.mpr ⟨rfl, h1⟩).isInfix
        · exact Or.inr ⟨a :: t'', rfl⟩
    · rcases ih hi with h1 | h1
      · exact Or.inl (sub_cons_of x h1)
      · exact Or.inr h1

theorem natToDigitsAux_digits (fuel : Nat) :
    ∀ (n : Nat) (acc : List Char), (∀ c ∈ acc, c.isDigit = true) →
      ∀ c ∈ natToDigitsAux fuel n acc, c.isDigit = true := by
  induction fuel with
  | zero => intro n acc hacc c hc; exact hacc c hc
  | succ fuel ih =>
    intro n acc hacc c hc
    have hdig : (Char.ofNat (48 + n % 10)).isDigit = true := by
      have hk : n % 10 < 10 := Nat.mod_lt _ (by norm_num)
      interval_cases h : n % 10 <;> decide
    rw [natToDigitsAux] at hc
    by_cases hn : n < 10
    · rw [if_pos hn] at hc
      rcases List.mem_cons.mp hc with rfl | hmem
      · exact hdig
      · exact hacc c hmem
    · rw [if_neg hn] at hc
      refine ih (n / 10) _ ?_ c hc
      intro x hx
      rcases List.mem_cons.mp hx with rfl | hmem
      · exact hdig
      · exact hacc x hmem

theorem intToStr_chars (i : Int) : ∀ c ∈ intToStr i, c.isDigit = true ∨ c = '-' := by
  intro c hc
  rw [intToStr] at hc
  by_cases hi : i < 0
  · rw [if_pos hi] at hc
    rcases List.mem_cons.mp hc with rfl | hmem
    · exact Or.inr rfl
    · exact Or.inl (natToDigitsAux_digits _ _ [] (by simp) c hmem)
  · rw [if_neg hi] at hc
    exact Or.inl (natToDigitsAux_digits _ _ [] (by simp) c hc)

theorem sub_stripQuotes_of {t l : List Char} (h : t <:+: stripQuotes l) : t <:+: l := by
  have h1 : stripQuotes l <+: l.dropWhile isQuoteChar :=
    List.rdropWhile_prefix isQuoteChar (l.dropWhile isQuoteChar)
  have h2 : l.dropWhile isQuoteChar <:+ l := List.dropWhile_suffix isQuoteChar
  exact (h.trans h1.isInfix).trans h2.isInfix

theorem assemble_command_shape (input_format video_size video_device codec params out : List Char) :
    assemble_command input_format video_size video_device codec params out =
      pyReplace ("ffmpeg -nostdin -hide_banner -loglevel error -f v4l2 -input_format".data ++
        ' ' :: (input_format ++ ' ' :: ("-s".data ++ ' ' :: (video_size ++ ' ' :: ("-i".data ++
        ' ' :: (video_device ++ ' ' :: ("-c:v".data ++ ' ' :: (codec ++ ' ' :: (params ++
        ' ' :: out))))))))) := by
  unfold assemble_command
  congr 1
  simp only [List.append_assoc, List.cons_append, List.nil_append]

/-- A space-free `-pix_fmt` in the assembled command line would have to come
from one of the interpolated pieces; the fixed template text does not contain
it. -/
theorem assemble_no_pixfmt (input_format video_size video_device codec params out : List Char)
    (h1 : ¬ "-pix_fmt".data <:+: input_format) (h2 : ¬ "-pix_fmt".data <:+: video_size)
    (h3 : ¬ "-pix_fmt".data <:+: video_device) (h4 : ¬ "-pix_fmt".data <:+: codec)
    (h5 : ¬ "-pix_fmt".data <:+: params) (h6 : ¬ "-pix_fmt".data <:+: out) :
    ¬ "-pix_fmt".data <:+:
      assemble_command input_format video_size video_device codec params out := by
  intro hsub
  rw [assemble_command_shape] at hsub
  have hns : ' ' ∉ "-pix_fmt".data := by decide
  have hsub2 := sub_pyReplace _ hns hsub
  rcases sub_of_app_space _ _ hns hsub2 with hA | hrest
  · exact absurd hA (by decide)
  rcases sub_of_app_space _ _ hns hrest with hA | hrest
  · exact h1 hA
  rcases sub_of_app_space _ _ hns hrest with hA | hrest
  · exact absurd hA (by decide)
  rcases sub_of_app_space _ _ hns hrest with hA | hrest
  · exact h2 hA
  rcases sub_of_app_space _ _ hns hrest with hA | hrest
  · exact absurd hA (by decide)
  rcases sub_of_app_space _ _ hns hrest with hA | hrest
  · exact h3 hA
  rcases sub_of_app_space _ _ hns hrest with hA | hrest
  · exact absurd hA (by decide)
  rcases sub_of_app_space _ _ hns hrest with hA | hrest
  · exact h4 hA
  rcases sub_of_app_space _ _ hns hrest with hA | hrest
  · exact h5 hA
  · exact h6 hrest

theorem default_paths_no_pixfmt (fmt p : List Char) (h : default_paths fmt = some p) :
    ¬ "-pix_fmt".data <:+: p := by
  rw [default_paths] at h
  by_cases hd : fmt = "dash".data
  · rw [if_pos hd] at h
    obtain rfl := Option.some.inj h
    decide
  · rw [if_neg hd] at h
    by_cases hr : fmt = "rtsp".data
    · rw [if_pos hr] at h
      obtain rfl := Option.some.inj h
      decide
    · rw [if_neg hr] at h
      exact absurd h (by simp)

theorem out_clause_no_pixfmt (fmt : List Char) (hls : Bool) (p o : List Char)
    (hp : ¬ "-pix_fmt".data <:+: p) (h : out_clause fmt hls p = some o) :
    ¬ "-pix_fmt".data <:+: o := by
  intro hsub
  have hns : ' ' ∉ "-pix_fmt".data := by decide
  rw [out_clause] at h
  by_cases hd : fmt = "dash".data
  · rw [if_pos hd] at h
    obtain rfl := Option.some.inj h
    cases hls with
    | true =>
      have hshape :
          "-f dash -remove_at_exit 1 -window_size 5 -use_timeline 1 -use_template 1 ".data ++
              (if (true : Bool) then ([] : List Char) else "-hls_playlist 1 ".data) ++ p =
            "-f dash -remove_at_exit 1 -window_size 5 -use_timeline 1 -use_template 1".data ++
              ' ' :: p := by
        rw [if_pos rfl, List.append_nil]
        rfl
      rw [hshape] at hsub
      rcases sub_of_app_space _ _ hns hsub with hA | hA
      · exact absurd hA (by decide)
      · exact hp hA
    | false =>
      have hshape :
          "-f dash -remove_at_exit 1 -window_size 5 -use_timeline 1 -use_template 1 ".data ++
              (if (false : Bool) then ([] : List Char) else "-hls_playlist 1 ".data) ++ p =
            "-f dash -remove_at_exit 1 -window_size 5 -use_timeline 1 -use_template 1".data ++
              ' ' :: ("-hls_playlist".data ++ ' ' :: ("1".data ++ ' ' :: p)) := by
        rw [if_neg (by decide), List.append_assoc]
        rfl
      rw [hshape] at hsub
      rcases sub_of_app_space _ _ hns hsub with hA | hrest
      · exact absurd hA (by decide)
      rcases sub_of_app_space _ _ hns hrest with hA | hrest
      · exact absurd hA (by decide)
      rcases sub_of_app_space _ _ hns hrest with hA | hrest
      · exact absurd hA (by decide)
      · exact hp hrest
  · rw [if_neg hd] at h
    by_cases hr : fmt = "rtsp".data
    · rw [if_pos hr] at h
      obtain rfl := Option.some.inj h
      have hshape : "-f rtsp ".data ++ p = "-f".data ++ ' ' :: ("rtsp".data ++ ' ' :: p) := rfl
      rw [hshape] at hsub
      rcases sub_of_app_space _ _ hns hsub with hA | hrest
      · exact absurd hA (by decide)
      rcases sub_of_app_space _ _ hns hrest with hA | hrest
      · exact absurd hA (by decide)
      · exact hp hrest
    · rw [if_neg hr] at h
      exact absurd h (by simp)

theorem pf_not_concat_k : ¬ ∃ t' : List Char, "-pix_fmt".data = t' ++ ['k'] := by
  intro ⟨t', ht'⟩
  have hlast := congrArg List.getLast? ht'
  rw [List.getLast?_concat] at hlast
  exact absurd hlast (by decide)

theorem pf_not_sub_intToStr (v : Int) : ¬ "-pix_fmt".data <:+: intToStr v := by
  intro hsub
  have hmem : 'p' ∈ intToStr v := hsub.sublist.subset (by decide)
  rcases intToStr_chars v 'p' hmem with hdig | hdash
  · exact absurd hdig (by decide)
  · exact absurd hdash (by decide)

/-- **C4 counterexample.**  With codec `h264_omx` (not `copy`) and empty
free-text parameters (which certainly specify no pixel format), the
synthesized command line contains no pixel-format flag at all — the claim's
"canonical pixel-format flag" is never emitted by this code. -/
theorem C4_counterexample :
    prepare_ffmpeg_command "h264".data "1920x1080".data "/dev/video0".data "h264_omx".data
        [] "dash".data false [] "dynamic".data =
      some ("ffmpeg -nostdin -hide_banner -loglevel error -f v4l2 -input_format h264 -s 1920x1080 -i /dev/video0 -c:v h264_omx -b:v 4050k -f dash -remove_at_exit 1 -window_size 5 -use_timeline 1 -use_template 1 -hls_playlist 1 /dev/shm/streaming/manifest.mpd".data) ∧
    ¬ "-pix_fmt".data <:+:
      "ffmpeg -nostdin -hide_banner -loglevel error -f v4l2 -input_format h264 -s 1920x1080 -i /dev/video0 -c:v h264_omx -b:v 4050k -f dash -remove_at_exit 1 -window_size 5 -use_timeline 1 -use_template 1 -hls_playlist 1 /dev/shm/streaming/manifest.mpd".data := by
  constructor
  · decide
  · decide

/-- **C4** (corrected).  The synthesizer never injects a pixel-format flag:
for every combination of inputs none of which itself contains the text
`-pix_fmt`, every successfully synthesized command line is free of
`-pix_fmt` — whether or not the codec is `copy` and whatever the free-text
parameters. -/
theorem C4_no_pixfmt_flag (ifmt vs dev codec params fmt path bitrate out : List Char)
    (hls : Bool)
    (h1 : ¬ "-pix_fmt".data <:+: ifmt) (h2 : ¬ "-pix_fmt".data <:+: vs)
    (h3 : ¬ "-pix_fmt".data <:+: dev) (h4 : ¬ "-pix_fmt".data <:+: codec)
    (h5 : ¬ "-pix_fmt".data <:+: params) (h6 : ¬ "-pix_fmt".data <:+: path)
    (h7 : ¬ "-pix_fmt".data <:+: bitrate)
    (h : prepare_ffmpeg_command ifmt vs dev codec params fmt hls path bitrate = some out) :
    ¬ "-pix_fmt".data <:+: out := by
  have hns : ' ' ∉ "-pix_fmt".data := by decide
  have hP : ¬ "-pix_fmt".data <:+: (if params = [] then params else stripQuotes params) := by
    by_cases hpe : params = []
    · rw [if_pos hpe]; exact h5
    · rw [if_neg hpe]; intro hsub; exact h5 (sub_stripQuotes_of hsub)
  cases hpm : (if path = [] then default_paths fmt else some path) with
  | none =>
    rw [prepare_ffmpeg_command.eq_def, hpm] at h
    exact absurd h (by simp)
  | some p =>
    have hpp : ¬ "-pix_fmt".data <:+: p := by
      by_cases hpe : path = []
      · rw [if_pos hpe] at hpm
        exact default_paths_no_pixfmt fmt p hpm
      · rw [if_neg hpe] at hpm
        obtain rfl := Option.some.inj hpm
        exact h6
    cases hoc : out_clause fmt hls p with
    | none =>
      rw [prepare_ffmpeg_command.eq_def, hpm] at h
      simp only [hoc] at h
      by_cases hcodec : codec ≠ "copy".data
      · rw [if_pos hcodec] at h
        by_cases hdyn : (isSubstrOf "-b".data
            (if params = [] then params else stripQuotes params) = false ∧
            bitrate = "dynamic".data)
        · rw [if_pos hdyn] at h
          cases hpv : parse_video_size vs with
          | none => simp [hpv] at h
          | some xy => simp [hpv] at h
        · rw [if_neg hdyn] at h
          simp at h
      · rw [if_neg hcodec] at h
        simp at h
    | some o =>
      have hpo : ¬ "-pix_fmt".data <:+: o := out_clause_no_pixfmt fmt hls p o hpp hoc
      rw [prepare_ffmpeg_command.eq_def, hpm] at h
      simp only [hoc] at h
      by_cases hcodec : codec ≠ "copy".data
      · rw [if_pos hcodec] at h
        by_cases hdyn : (isSubstrOf "-b".data
            (if params = [] then params else stripQuotes params) = false ∧
            bitrate = "dynamic".data)
        · rw [if_pos hdyn] at h
          cases hpv : parse_video_size vs with
          | none => simp [hpv] at h
          | some xy =>
            simp only [hpv, Option.some.injEq] at h
            rw [← h]
            refine assemble_no_pixfmt _ _ _ _ _ _ h1 h2 h3 h4 ?_ hpo
            intro hsub
            have hshape :
                (if params = [] then params else stripQuotes params) ++ " -b:v ".data ++
                    intToStr (Int.fdiv (xy.1 * xy.2 * 2) 1024) ++ ['k'] =
                  (if params = [] then params else stripQuotes params) ++ ' ' ::
                    ("-b:v".data ++ ' ' ::
                      (intToStr (Int.fdiv (xy.1 * xy.2 * 2) 1024) ++ ['k'])) := by
              simp only [List.append_assoc]
              exact rfl
            rw [hshape] at hsub
            rcases sub_of_app_space _ _ hns hsub with hA | hrest
            · exact hP hA
            rcases sub_of_app_space _ _ hns hrest with hA | hrest
            · exact absurd hA (by decide)
            rcases sub_app_single 'k' hrest with hA | hA
            · exact pf_not_sub_intToStr _ hA
            · exact pf_not_concat_k hA
        · rw [if_neg hdyn] at h
          simp only [Option.some.injEq] at h
          rw [← h]
          refine assemble_no_pixfmt _ _ _ _ _ _ h1 h2 h3 h4 ?_ hpo
          intro hsub
          have hshape :
              (if params = [] then params else stripQuotes params) ++ " -b:v ".data ++
                  (if endsWithMKG bitrate then bitrate else bitrate ++ ['k']) =
                (if params = [] then params else stripQuotes params) ++ ' ' ::
                  ("-b:v".data ++ ' ' ::
                    (if endsWithMKG bitrate then bitrate else bitrate ++ ['k'])) := by
            simp only [List.append_assoc]
            exact rfl
          rw [hshape] at hsub
          rcases sub_of_app_space _ _ hns hsub with hA | hrest
          · exact hP hA
          rcases sub_of_app_space _ _ hns hrest with hA | hrest
          · exact absurd hA (by decide)
          by_cases hmkg : endsWithMKG bitrate = true
          · rw [if_pos hmkg] at hrest
            exact h7 hrest
          · rw [if_neg hmkg] at hrest
            rcases sub_app_single 'k' hrest with hA | hA
            · exact h7 hA
            · exact pf_not_concat_k hA
      · rw [if_neg hcodec] at h
        simp only [Option.some.injEq] at h
        rw [← h]
        exact assemble_no_pixfmt _ _ _ _ _ _ h1 h2 h3 h4 hP hpo

/-- Witness for C4 at the counterexample's inputs. -/
theorem C4_no_pixfmt_flag_witness :
    ¬ "-pix_fmt".data <:+:
      (prepare_ffmpeg_command "h264".data "1920x1080".data "/dev/video0".data "h264_omx".data
        [] "dash".data false [] "dynamic".data).getD [] :=
  C4_no_pixfmt_flag "h264".data "1920x1080".data "/dev/video0".data "h264_omx".data
    [] "dash".data [] "dynamic".data _ false
    (by decide) (by decide) (by decide) (by decide) (by decide) (by decide) (by decide)
    (by decide)

end StreamingSetup
